import Mathlib

/-!
Verification development for the m3u8-detector repository.

The repository is a small Express server (three near-duplicate variants:
two in `src/server.js`, one puppeteer-based variant in `src/unnamed/part_000`)
with two endpoints:

* `GET /scrape?url=` — validates the target against an optional domain
  allowlist, fetches the page (statically via axios, or rendered via
  puppeteer), extracts candidate `.m3u8` manifest URLs and page metadata,
  selects a "best" candidate, and answers with JSON.
* `GET /proxy?src=` — validates the target, issues an upstream GET and
  relays the byte stream with a fixed passthrough header list.

This file shallowly embeds the pure logic of those handlers.  External
collaborators (Express routing, axios transport, the puppeteer browser,
cheerio's HTML parsing) are represented at their interfaces: the network
exchange becomes an explicit outcome value handed to the handler, and a
parsed page becomes a `Doc` record carrying exactly the projections the
code reads from cheerio (selected element attributes, script text bodies,
the raw HTML text, the title text and the three OpenGraph attributes).

The WHATWG `new URL` constructor used by the code is modelled for the
fragment the program exercises: absolute `http(s)://host[:port]path`
URLs whose host is a domain over the characters `[A-Za-z0-9._-]`, plus
relative-reference resolution against such a base.  Inputs outside this
fragment (exotic schemes, userinfo, percent-encoded hosts, tab/newline
stripping, path normalisation) are not modelled; every concrete input
used in a theorem below stays inside the modelled fragment and has been
checked against the real constructor's behaviour.
-/

/-! ## JavaScript truthiness helpers -/

/-- JS `a || b` on an optional string, where `undefined` and the empty
string are falsy (`x.message || 'default'`, `responseUrl || target`). -/
def jsMsgOr (a : Option String) (b : String) : String :=
  match a with
  | some s => if s = "" then b else s
  | none => b

/-- JS `a || b` on two optional strings (`attr('src') || attr('href')`). -/
def jsOrO (a b : Option String) : Option String :=
  match a with
  | some s => if s = "" then b else some s
  | none => b

/-- JS `v || null` on an optional string attribute value. -/
def jsStrOrNull (a : Option String) : Option String :=
  match a with
  | some s => if s = "" then none else some s
  | none => none

/-! ## Character-list utilities

All string processing is done on `List Char` so that every definition
reduces well inside `decide`/`rfl` proofs. -/

/-- Whether `s` starts with `pat`. -/
def listStartsWith : List Char → List Char → Bool
  | _, [] => true
  | [], _ :: _ => false
  | a :: as, b :: bs => a == b && listStartsWith as bs

/-- Whether `s` ends with `pat` (JS `String.prototype.endsWith`). -/
def listEndsWith (s pat : List Char) : Bool :=
  listStartsWith s.reverse pat.reverse

/-- Whether `pat` occurs as a contiguous substring of `s`. -/
def hasSub : List Char → List Char → Bool
  | s, pat =>
    match s with
    | [] => listStartsWith [] pat
    | _ :: t => listStartsWith s pat || hasSub t pat

/-- Lowercase every character (ASCII, which is all the model admits in hosts). -/
def lowerStr (l : List Char) : List Char :=
  l.map Char.toLower

/-- Case-insensitive substring occurrence. -/
def hasSubCI (s pat : List Char) : Bool :=
  hasSub (lowerStr s) (lowerStr pat)

/-- JS `String.prototype.includes` on Lean strings (case-sensitive). -/
def strIncludes (s pat : String) : Bool :=
  hasSub s.toList pat.toList

/-- Split at the first occurrence of `pat`, returning the part before and
the part after the occurrence; `none` when `pat` does not occur. -/
def splitAtSub (pat : List Char) : List Char → Option (List Char × List Char)
  | [] => if listStartsWith [] pat then some ([], []) else none
  | c :: rest =>
    if listStartsWith (c :: rest) pat then
      some ([], (c :: rest).drop pat.length)
    else
      (splitAtSub pat rest).map (fun p => (c :: p.1, p.2))

/-- Split at every comma (JS `String.prototype.split(',')`), which returns
`[""]` on the empty string. -/
def splitComma : List Char → List (List Char)
  | [] => [[]]
  | c :: rest =>
    let r := splitComma rest
    if c == ',' then [] :: r
    else
      match r with
      | h :: t => (c :: h) :: t
      | [] => [[c]]

/-- Remove leading and trailing whitespace (JS `String.prototype.trim`). -/
def trimChars (l : List Char) : List Char :=
  ((l.dropWhile Char.isWhitespace).reverse.dropWhile Char.isWhitespace).reverse

/-- Digit string to number, for port validation. -/
def digitsToNat (l : List Char) : Nat :=
  l.foldl (fun n c => n * 10 + (c.toNat - '0'.toNat)) 0

/-! ## URL model (`new URL` of Node, restricted as described above) -/

/-- Characters the model accepts inside a hostname: ASCII letters and
digits, dot, hyphen, underscore.  The WHATWG parser rejects hosts that
contain forbidden code points such as `%` or a space; the model
conservatively rejects everything outside this safe alphabet. -/
def isHostChar (c : Char) : Bool :=
  c.isAlpha || c.isDigit || c == '.' || c == '-' || c == '_'

/-- Characters that terminate the host component. -/
def isHostDelim (c : Char) : Bool :=
  c == '/' || c == '?' || c == '#' || c == ':'

/-- A parsed URL: lowercased scheme and host, optional non-default port,
and the raw remainder (path, query and fragment as written). -/
structure URLRec where
  scheme : List Char
  host : List Char
  port : Option (List Char)
  tail : List Char
deriving DecidableEq, Repr

/-- Parse an absolute `http(s)` URL (model of `new URL(s)` succeeding). -/
def parseURLChars (l : List Char) : Option URLRec :=
  match splitAtSub ("://".toList) l with
  | none => none
  | some (schemeRaw, rest) =>
    let scheme := lowerStr schemeRaw
    if !(scheme == "http".toList || scheme == "https".toList) then none
    else
      let host := rest.takeWhile (fun c => !isHostDelim c)
      let rest2 := rest.dropWhile (fun c => !isHostDelim c)
      if host == ([] : List Char) then none
      else if !(host.all isHostChar) then none
      else
        match rest2 with
        | ':' :: rest3 =>
          let portRaw := rest3.takeWhile (fun c => !(c == '/' || c == '?' || c == '#'))
          let tail := rest3.dropWhile (fun c => !(c == '/' || c == '?' || c == '#'))
          if !(portRaw.all Char.isDigit) then none
          else if 65535 < digitsToNat portRaw then none
          else
            let port :=
              if portRaw == ([] : List Char) then none
              else if scheme == "http".toList && portRaw == "80".toList then none
              else if scheme == "https".toList && portRaw == "443".toList then none
              else some portRaw
            some ⟨scheme, lowerStr host, port, tail⟩
        | _ => some ⟨scheme, lowerStr host, none, rest2⟩

/-- Parse an absolute URL given as a string. -/
def parseURL (s : String) : Option URLRec :=
  parseURLChars s.toList

/-- Serialisation of the path-query-fragment remainder: an absent path
serialises as `/`, and a remainder starting with `?` or `#` gets the
root path prepended, as the WHATWG serialiser does. -/
def normTail (t : List Char) : List Char :=
  match t with
  | [] => ['/']
  | '/' :: _ => t
  | _ => '/' :: t

/-- Serialisation (`u.href` in JS). -/
def URLRec.href (u : URLRec) : String :=
  ⟨u.scheme ++ "://".toList ++ u.host ++
    (match u.port with | some p => ':' :: p | none => []) ++ normTail u.tail⟩

/-- The path of the remainder, without query or fragment. -/
def stripQF (t : List Char) : List Char :=
  t.takeWhile (fun c => !(c == '?' || c == '#'))

/-- The remainder without its fragment. -/
def stripF (t : List Char) : List Char :=
  t.takeWhile (fun c => !(c == '#'))

/-- The directory part of a path: everything up to and including the last
slash, or the root when the path has no slash. -/
def dirOf (path : List Char) : List Char :=
  let r := path.reverse.dropWhile (fun c => !(c == '/'))
  if r == ([] : List Char) then ['/'] else r.reverse

/-- Resolve a relative reference against a parsed base
(model of `new URL(src, base)` for a non-absolute `src`). -/
def resolveRel (src : List Char) (b : URLRec) : Option URLRec :=
  match src with
  | [] => some b
  | '/' :: '/' :: _ => parseURLChars (b.scheme ++ ':' :: src)
  | '/' :: _ => some { b with tail := src }
  | '?' :: _ => some { b with tail := stripQF b.tail ++ src }
  | '#' :: _ => some { b with tail := stripF b.tail ++ src }
  | _ => some { b with tail := dirOf (stripQF b.tail) ++ src }

/-- Whether a string begins with `http://` or `https://` (case-insensitively),
i.e. looks like an absolute URL of a modelled scheme.  A string of this
shape that still fails `parseURLChars` corresponds to a `new URL` call
that throws (e.g. a forbidden character in the host). -/
def startsHttpCI (l : List Char) : Bool :=
  listStartsWith (lowerStr (l.take 8)) ("https://".toList) ||
    listStartsWith (lowerStr (l.take 7)) ("http://".toList)

/-- Model of `new URL(src, base)` with both arguments given as strings:
the base is parsed first (the constructor throws on an invalid base),
then `src` is taken absolute when it parses, rejected when it merely
looks absolute, and resolved relatively otherwise. -/
def resolveURLStr (src base : String) : Option URLRec :=
  match parseURL base with
  | none => none
  | some b =>
    match parseURL src with
    | some u => some u
    | none => if startsHttpCI src.toList then none else resolveRel src.toList b

/-! ## Allowlist guard (`isAllowed`, identical in all three variants) -/

/-- Model of `ALLOWLIST = process.env.ALLOWLIST?.split(',').map(d => d.trim()) || []`:
an absent variable yields the empty list, otherwise the comma-split,
trimmed fields (note `"".split(',')` is `[""]`, so a set-but-empty or
trailing-comma value contributes empty-string entries). -/
def parseAllowlist (env : Option String) : List String :=
  match env with
  | none => []
  | some s => (splitComma s.toList).map (fun l => String.mk (trimChars l))

/-- Model of `isAllowed(urlStr)`: parse the URL (denied on failure), allow
everything when the configured list is empty, otherwise allow exactly
when the hostname ends with some configured entry
(`u.hostname.endsWith(domain)`). -/
def isAllowed (allow : List String) (urlStr : String) : Bool :=
  match parseURL urlStr with
  | none => false
  | some u =>
    if allow.length = 0 then true
    else allow.any (fun d => listEndsWith u.host d.toList)

/-! ## Page model

The HTML page is represented by the projections the code reads off
cheerio: the elements matched by
`$('source[src*=".m3u8"], a[href*=".m3u8"], video[src*=".m3u8"]')`
(each contributing its `src`/`href` attribute values), the text bodies of
`$('script')` elements, the raw HTML text, the text of the first
`<title>` element (empty when absent, as `.text()` returns), and the
`content` attributes of the three OpenGraph meta tags. -/

/-- One DOM element matched by the manifest attribute selector. -/
structure DomEl where
  src : Option String
  href : Option String
deriving DecidableEq, Repr

/-- A parsed page, as observed through the cheerio queries the code makes. -/
structure Doc where
  els : List DomEl
  scripts : List String
  raw : String
  titleText : String
  ogTitle : Option String
  ogVideo : Option String
  ogDescription : Option String
deriving DecidableEq, Repr

/-- Page metadata record returned by `extractMeta`. -/
structure PageMeta where
  title : Option String
  ogTitle : Option String
  ogVideo : Option String
  ogDescription : Option String
deriving DecidableEq, Repr

/-- Model of `extractMeta(html)`: trimmed first title text or null, and the
three OpenGraph contents or null (JS `|| null` treats `""` as absent). -/
def extractMeta (d : Doc) : PageMeta :=
  { title :=
      let t := String.mk (trimChars d.titleText.toList)
      if t = "" then none else some t
    ogTitle := jsStrOrNull d.ogTitle
    ogVideo := jsStrOrNull d.ogVideo
    ogDescription := jsStrOrNull d.ogDescription }

/-! ## The manifest URL scanner

Model of the regex `/(https?:\/\/[^\s"'\\]+?\.m3u8[^\s"'\\]*)/gi` driven by
a `re.exec` loop: scanning left to right, a match begins at a position
carrying `http://` or `https://` (case-insensitively); the following run
of characters outside `[\s"'\\]` must contain `.m3u8` (case-insensitively)
after at least one run character; the lazy body plus the greedy tail then
cover exactly that run, and scanning resumes after it. -/

/-- Characters admitted by the regex character class `[^\s"'\\]`. -/
def allowedScanChar (c : Char) : Bool :=
  !(c.isWhitespace || c == '"' || c == '\'' || c == '\\')

/-- Length of the scheme marker when the text starts with one. -/
def schemeMarkLen (l : List Char) : Option Nat :=
  if listStartsWith (lowerStr (l.take 8)) ("https://".toList) then some 8
  else if listStartsWith (lowerStr (l.take 7)) ("http://".toList) then some 7
  else none

/-- Whether the run contains `.m3u8` (case-insensitively) at offset ≥ 1,
which is what the lazy one-or-more body requires. -/
def hasDotM3u8From1 : List Char → Bool
  | [] => false
  | _ :: rest => hasSubCI rest (".m3u8".toList)

/-- The exec loop; fuel is the remaining text length, each step consumes
at least one character. -/
def scanAux : Nat → List Char → List String
  | 0, _ => []
  | _ + 1, [] => []
  | fuel + 1, c :: rest =>
    match schemeMarkLen (c :: rest) with
    | some n =>
      let run := ((c :: rest).drop n).takeWhile allowedScanChar
      if hasDotM3u8From1 run then
        String.mk ((c :: rest).take (n + run.length)) ::
          scanAux fuel ((c :: rest).drop (n + run.length))
      else
        scanAux fuel rest
    | none => scanAux fuel rest

/-- All matches of the manifest URL regex in a text, in order. -/
def scanM3U8 (s : String) : List String :=
  scanAux s.toList.length s.toList

/-! ## Manifest extractor (`extractM3U8` of `src/server.js`)

The three passes feed one insertion-ordered deduplicating set
(a JS `Set` materialised by `Array.from`).  The DOM pass calls
`new URL(src, baseUrl).href` with no `try/catch`, so a failing resolution
propagates out of the function; the script pass and the raw-text pass
wrap the same call in `try { ... } catch {}` and skip the candidate. -/

/-- Insert at the back unless already present (JS `Set.prototype.add`). -/
def addUnique (acc : List String) (s : String) : List String :=
  if s ∈ acc then acc else acc ++ [s]

/-- The attribute value the code uses: `$(el).attr('src') || $(el).attr('href')`,
then skipped by `if (src)` when falsy. -/
def effSrc (el : DomEl) : Option String :=
  match jsOrO el.src el.href with
  | some s => if s = "" then none else some s
  | none => none

/-- The DOM pass: resolution failure raises (no `try/catch` in the source). -/
def domPass (base : String) : List DomEl → List String → Except String (List String)
  | [], acc => .ok acc
  | el :: rest, acc =>
    match effSrc el with
    | none => domPass base rest acc
    | some s =>
      match resolveURLStr s base with
      | none => .error "Invalid URL"
      | some u => domPass base rest (addUnique acc u.href)

/-- Add one scanned candidate, silently discarding it when resolution
fails (the `try { ... } catch {}` of the script and raw passes). -/
def addResolved (base : String) (acc : List String) (m : String) : List String :=
  match resolveURLStr m base with
  | none => acc
  | some u => addUnique acc u.href

/-- The script-text pass. -/
def scriptPass (base : String) (texts : List String) (acc : List String) : List String :=
  texts.foldl (fun a t => (scanM3U8 t).foldl (addResolved base) a) acc

/-- The raw-HTML fallback pass. -/
def rawPass (base : String) (html : String) (acc : List String) : List String :=
  (scanM3U8 html).foldl (addResolved base) acc

/-- Model of `extractM3U8(html, baseUrl)`.  `Except.error` is a thrown
`TypeError` escaping the function (possible only in the DOM pass). -/
def extractM3U8 (doc : Doc) (baseUrl : String) : Except String (List String) :=
  match domPass baseUrl doc.els [] with
  | .error e => .error e
  | .ok a1 => .ok (rawPass baseUrl doc.raw (scriptPass baseUrl doc.scripts a1))

/-! ## Candidate selector -/

/-- Model of `/master|index|playlist/i.test(u)`. -/
def hasTokCI (u : String) : Bool :=
  let l := lowerStr u.toList
  hasSub l ("master".toList) || hasSub l ("index".toList) || hasSub l ("playlist".toList)

/-- Model of `urls.find(u => /master|index|playlist/i.test(u)) || urls[0] || null`,
with JS falsiness on the two `||` steps. -/
def bestOf (urls : List String) : Option String :=
  jsOrO (urls.find? hasTokCI) (jsOrO urls.head? none)

/-- Modelled from the spec (§4.4 Candidate Selector): return the first
candidate whose URL text matches (case-insensitively) one of the tokens
`master`, `index`, `playlist`; if none match, the first candidate in set
order; if the set is empty, null.  Stated for comparison with `bestOf`. -/
def selectorSpec (urls : List String) : Option String :=
  match urls.find? hasTokCI with
  | some u => some u
  | none => urls.head?

/-! ## The `/scrape` handlers -/

/-- Outcome of the static page fetch (`axios.get(target, ...)`): a failure
with the error's optional message, or a response body (as a parsed `Doc`)
together with the optional final `responseUrl`. -/
inductive FetchOutcome where
  | failure (msg : Option String)
  | success (doc : Doc) (responseUrl : Option String)
deriving Repr

/-- Outcome of the rendered (puppeteer) fetch: a failure, or the final
page URL, the rendered page, and the network request URLs observed by
the `page.on('request')` listener, in observation order. -/
inductive RenderOutcome where
  | failure (msg : Option String)
  | success (finalUrl : String) (doc : Doc) (requests : List String)
deriving Repr

/-- JSON body of a `/scrape` response: `{error}`, `{ok:false, error}`, or
`{ok:true, page, meta, m3u8Urls, best}`. -/
inductive ScrapeBody where
  | errOnly (error : String)
  | okFalse (error : String)
  | okTrue (page : String) (meta : PageMeta) (m3u8Urls : List String) (best : Option String)
deriving DecidableEq, Repr

/-- A `/scrape` response: HTTP status and JSON body.  The permissive CORS
headers added by the global middleware are outside this model. -/
structure ScrapeResp where
  status : Nat
  body : ScrapeBody
deriving DecidableEq, Repr

/-- Whether the body carries an explicit `ok:false` field. -/
def hasOkFalse : ScrapeBody → Bool
  | .okFalse _ => true
  | _ => false

/-- The candidate list of a success body, when there is one. -/
def respUrls (r : ScrapeResp) : Option (List String) :=
  match r.body with
  | .okTrue _ _ urls _ => some urls
  | _ => none

/-- Model of the static `/scrape` handler of `src/server.js`: missing or
empty `url` gives 400 `{error}`; a disallowed target gives 403 `{error}`;
a fetch failure or an error thrown by extraction is caught and gives
500 `{ok:false, error}`; otherwise 200 `{ok:true, ...}` with
`baseUrl = responseUrl || target` and `best` from the selection formula. -/
def scrapeStatic (allow : List String) (target? : Option String)
    (outcome : FetchOutcome) : ScrapeResp :=
  match target? with
  | none => ⟨400, .errOnly "Missing ?url="⟩
  | some target =>
    if target = "" then ⟨400, .errOnly "Missing ?url="⟩
    else if isAllowed allow target = false then ⟨403, .errOnly "Domain not allowed"⟩
    else
      match outcome with
      | .failure msg => ⟨500, .okFalse (jsMsgOr msg "Fetch failed")⟩
      | .success doc responseUrl =>
        let baseUrl := jsMsgOr responseUrl target
        match extractM3U8 doc baseUrl with
        | .error e => ⟨500, .okFalse (jsMsgOr (some e) "Fetch failed")⟩
        | .ok m3u8Urls =>
          ⟨200, .okTrue baseUrl (extractMeta doc) m3u8Urls (bestOf m3u8Urls)⟩

/-- The candidate set of the rendered handler: the observed request URLs
that contain `.m3u8` (JS `url.includes('.m3u8')`, case-sensitive),
deduplicated keeping first occurrences (`Set` + `Array.from`). -/
def renderedCandidates (requests : List String) : List String :=
  (requests.filter (fun u => strIncludes u ".m3u8")).foldl addUnique []

/-- Model of the rendered `/scrape` handler of `src/unnamed/part_000`:
same validation (with `ok:false` on the 400/403 bodies), 500
`{ok:false, error}` on a puppeteer failure, otherwise 200 with the
network-observed candidate set; the page HTML feeds only `extractMeta`. -/
def scrapeRendered (allow : List String) (target? : Option String)
    (outcome : RenderOutcome) : ScrapeResp :=
  match target? with
  | none => ⟨400, .okFalse "Missing ?url="⟩
  | some target =>
    if target = "" then ⟨400, .okFalse "Missing ?url="⟩
    else if isAllowed allow target = false then ⟨403, .okFalse "Domain not allowed"⟩
    else
      match outcome with
      | .failure msg => ⟨500, .okFalse (jsMsgOr msg "Puppeteer failed")⟩
      | .success finalUrl doc requests =>
        let urls := renderedCandidates requests
        ⟨200, .okTrue finalUrl (extractMeta doc) urls (bestOf urls)⟩

/-! ## The `/proxy` handler -/

/-- Outcome of the upstream `axios.get(src, {validateStatus: ...})` at the
transport level: a network-level error (timeout, refused connection, too
many redirects) with its optional message, or an upstream HTTP response
with its status and (lowercased-key) headers. -/
inductive UpstreamOutcome where
  | netErr (msg : Option String)
  | response (status : Nat) (headers : List (String × String))
deriving Repr

/-- Body of a `/proxy` response: a plain-text message or the relayed
upstream byte stream. -/
inductive ProxyBody where
  | text (s : String)
  | stream
deriving DecidableEq, Repr

/-- A `/proxy` response.  As in `ScrapeResp`, middleware CORS headers are
outside the model; `headers` are those the handler itself sets. -/
structure ProxyResp where
  status : Nat
  headers : List (String × String)
  body : ProxyBody
deriving DecidableEq, Repr

/-- First value stored under a header name. -/
def getHeader (hs : List (String × String)) (k : String) : Option String :=
  (hs.find? (fun p => p.1 == k)).map (fun p => p.2)

/-- Node `res.setHeader`: replace any existing value under the name. -/
def setHeader (hs : List (String × String)) (k v : String) : List (String × String) :=
  hs.filter (fun p => !(p.1 == k)) ++ [(k, v)]

/-- The fixed passthrough list of the source. -/
def passthroughKeys : List String :=
  ["content-type", "content-length", "accept-ranges", "content-range",
   "etag", "last-modified", "cache-control", "access-control-allow-origin"]

/-- One step of `passthrough.forEach(h => { const v = upstream.headers[h]; if (v) res.setHeader(h, v); })`. -/
def copyStep (up : List (String × String)) (acc : List (String × String))
    (h : String) : List (String × String) :=
  match getHeader up h with
  | some v => if v = "" then acc else setHeader acc h v
  | none => acc

/-- The mirrored headers after the passthrough loop. -/
def copyHeaders (up : List (String × String)) : List (String × String) :=
  passthroughKeys.foldl (copyStep up) []

/-- The relay's final headers: the passthrough copies, then the
unconditional `res.setHeader('Access-Control-Allow-Origin', '*')`. -/
def relayHeaders (up : List (String × String)) : List (String × String) :=
  setHeader (copyHeaders up) "access-control-allow-origin" "*"

/-- The message of the error axios throws when `validateStatus` rejects. -/
def axiosStatusErrMsg (s : Nat) : String :=
  "Request failed with status code " ++ toString s

/-- Model of the `/proxy` handler (identical in all three variants):
missing or empty `src` gives 400; a disallowed target gives 403; a
network error or a status outside `[200,400)` is caught and gives 502
with body `Upstream error: <message>`; an accepted upstream response is
piped through with the passthrough headers.  The handler never sets the
response status in the success path, so Express answers with its default
status 200 whatever the upstream status was. -/
def proxyHandler (allow : List String) (src? : Option String)
    (outcome : UpstreamOutcome) : ProxyResp :=
  match src? with
  | none => ⟨400, [], .text "Missing ?src="⟩
  | some src =>
    if src = "" then ⟨400, [], .text "Missing ?src="⟩
    else if isAllowed allow src = false then ⟨403, [], .text "Domain not allowed"⟩
    else
      match outcome with
      | .netErr msg => ⟨502, [], .text ("Upstream error: " ++ jsMsgOr msg "Bad gateway")⟩
      | .response status hdrs =>
        if 200 ≤ status ∧ status < 400 then ⟨200, relayHeaders hdrs, .stream⟩
        else ⟨502, [], .text ("Upstream error: " ++ axiosStatusErrMsg status)⟩

/-- A string is the serialisation of some candidate successfully resolved
against the base — the shape of every entry the extractor emits. -/
def isResolvedHref (base u : String) : Prop :=
  ∃ s w, resolveURLStr s base = some w ∧ u = URLRec.href w

/-! ## Generic lemmas -/

/-- `listStartsWith` with the empty pattern holds for every string. -/
theorem listStartsWith_nil (s : List Char) : listStartsWith s [] = true := by
  cases s <;> rfl

/-- `listStartsWith` is string-prefix. -/
theorem listStartsWith_iff (pat : List Char) :
    ∀ s, listStartsWith s pat = true ↔ pat <+: s := by
  induction pat with
  | nil =>
    intro s
    simp [listStartsWith_nil, List.nil_prefix]
  | cons b bs ih =>
    intro s
    cases s with
    | nil =>
      simp [listStartsWith]
    | cons a as =>
      simp only [listStartsWith, Bool.and_eq_true, beq_iff_eq, ih as,
        List.cons_prefix_cons]
      exact ⟨fun h => ⟨h.1.symm, h.2⟩, fun h => ⟨h.1.symm, h.2⟩⟩

/-- `listEndsWith` is string-suffix. -/
theorem listEndsWith_iff (s pat : List Char) :
    listEndsWith s pat = true ↔ pat <:+ s := by
  rw [listEndsWith, listStartsWith_iff, List.reverse_prefix]

/-- A JS `||` step yielding a value means one of its operands held it. -/
theorem jsOrO_eq_some (a b : Option String) (u : String) (h : jsOrO a b = some u) :
    a = some u ∨ b = some u := by
  cases a with
  | none => exact Or.inr h
  | some s =>
    simp only [jsOrO] at h
    by_cases hs : s = ""
    · rw [if_pos hs] at h; exact Or.inr h
    · rw [if_neg hs] at h; exact Or.inl h

/-- The selection formula only ever returns a member of the list. -/
theorem bestOf_mem : ∀ (urls : List String) (u : String), bestOf urls = some u → u ∈ urls := by
  intro urls u h
  rcases jsOrO_eq_some _ _ _ h with h1 | h2
  · exact List.mem_of_find?_eq_some h1
  · rcases jsOrO_eq_some _ _ _ h2 with h3 | h4
    · cases urls with
      | nil => exact absurd h3 (by simp)
      | cons a as =>
        rw [List.head?, Option.some.injEq] at h3
        exact h3 ▸ List.mem_cons_self a as
    · exact absurd h4 (by simp)

/-! ## Claim C1 — allowlist guard -/

/-- C1: `isAllowed` denies every unparseable URL string; with an empty
allow-set it allows every parseable URL; with a non-empty allow-set it
allows a URL exactly when its hostname ends with at least one configured
suffix; in particular, with allowlist `["example.com"]`,
`https://sub.example.com/x` is allowed and `https://example.com.evil.com/x`
is not (its hostname does not end with the string `example.com`). -/
theorem allowlist_guard_C1 :
    (∀ allow s, parseURL s = none → isAllowed allow s = false)
    ∧ (∀ s u, parseURL s = some u → isAllowed [] s = true)
    ∧ (∀ allow s u, allow ≠ [] → parseURL s = some u →
        (isAllowed allow s = true ↔ ∃ d ∈ allow, d.toList <:+ u.host))
    ∧ isAllowed ["example.com"] "https://sub.example.com/x" = true
    ∧ isAllowed ["example.com"] "https://example.com.evil.com/x" = false := by
  refine ⟨?_, ?_, ?_, by rfl, by rfl⟩
  · intro allow s h
    simp [isAllowed, h]
  · intro s u h
    simp [isAllowed, h]
  · intro allow s u hne h
    simp only [isAllowed, h]
    rw [if_neg (by simpa using hne), List.any_eq_true]
    constructor
    · rintro ⟨d, hd, hsuf⟩
      exact ⟨d, hd, (listEndsWith_iff u.host d.toList).mp hsuf⟩
    · rintro ⟨d, hd, hsuf⟩
      exact ⟨d, hd, (listEndsWith_iff u.host d.toList).mpr hsuf⟩

/-- Witness for C1 at concrete inputs. -/
theorem allowlist_guard_C1_witness :
    isAllowed ["example.com"] "notaurl" = false
    ∧ isAllowed [] "https://anything.test/x" = true
    ∧ ("example.com".toList <:+ "sub.example.com".toList) := by
  refine ⟨?_, ?_, ?_⟩
  · exact allowlist_guard_C1.1 ["example.com"] "notaurl" (by rfl)
  · exact allowlist_guard_C1.2.1 "https://anything.test/x"
      ⟨"https".toList, "anything.test".toList, none, "/x".toList⟩ (by rfl)
  · have h := (allowlist_guard_C1.2.2.1 ["example.com"] "https://sub.example.com/x"
      ⟨"https".toList, "sub.example.com".toList, none, "/x".toList⟩
      (by simp) (by rfl)).mp (by rfl)
    obtain ⟨d, hd, hsuf⟩ := h
    rw [List.mem_singleton] at hd
    subst hd
    exact hsuf

/-! ## Claim C10 — empty-string allowlist entry -/

/-- C10: when the configured allowlist contains an empty-string entry
(as produced by a trailing comma in the environment value), the guard
allows every parseable URL, since every hostname ends with the empty
string; and `parseAllowlist` of `"example.com,"` does contain `""`. -/
theorem allowlist_empty_entry_C10 :
    (∀ allow s u, "" ∈ allow → parseURL s = some u → isAllowed allow s = true)
    ∧ "" ∈ parseAllowlist (some "example.com,") := by
  constructor
  · intro allow s u hmem hparse
    simp only [isAllowed, hparse]
    by_cases h : allow.length = 0
    · rw [if_pos h]
    · rw [if_neg h, List.any_eq_true]
      refine ⟨"", hmem, ?_⟩
      show listEndsWith u.host "".toList = true
      rw [listEndsWith]
      exact listStartsWith_nil _
  · decide

/-- Witness for C10: the guard configured from `ALLOWLIST=example.com,`
allows a host unrelated to `example.com`. -/
theorem allowlist_empty_entry_C10_witness :
    isAllowed (parseAllowlist (some "example.com,")) "https://totally-unrelated.net/x" = true :=
  allowlist_empty_entry_C10.1 _ _
    ⟨"https".toList, "totally-unrelated.net".toList, none, "/x".toList⟩
    (by decide) (by rfl)

/-! ## Claim C6 — candidate selector -/

/-- C6: on every candidate list whose members are absolute URL strings
(hence non-empty), the selection expression
`urls.find(u => /master|index|playlist/i.test(u)) || urls[0] || null`
returns the first candidate containing one of the tokens `master`,
`index`, `playlist` case-insensitively, else the first candidate, else
null — i.e. it agrees with the selector the specification describes. -/
theorem candidate_selector_C6 :
    ∀ urls : List String, "" ∉ urls → bestOf urls = selectorSpec urls := by
  intro urls hne
  unfold bestOf selectorSpec
  cases hf : urls.find? hasTokCI with
  | some u =>
    have hu : u ∈ urls := List.mem_of_find?_eq_some hf
    have hne' : u ≠ "" := fun h => hne (h ▸ hu)
    simp [jsOrO, hne']
  | none =>
    cases urls with
    | nil => simp [jsOrO]
    | cons a as =>
      have hne' : a ≠ "" := fun h => hne (h ▸ List.mem_cons_self a as)
      simp [jsOrO, hne']

/-- Witness for C6 on the specification's own example lists. -/
theorem candidate_selector_C6_witness :
    bestOf ["https://x/seg1.m3u8", "https://x/master.m3u8"]
      = selectorSpec ["https://x/seg1.m3u8", "https://x/master.m3u8"]
    ∧ selectorSpec ["https://x/seg1.m3u8", "https://x/master.m3u8"]
      = some "https://x/master.m3u8"
    ∧ bestOf ["https://x/a.m3u8"] = some "https://x/a.m3u8"
    ∧ bestOf ([] : List String) = none := by
  refine ⟨candidate_selector_C6 _ (by decide), by decide, by decide, by rfl⟩

/-! ## Claim C7 — selection result consistent with candidate set -/

/-- Every success body of the static handler carries `bestOf` of its own
candidate list as the selection. -/
theorem scrapeStatic_okTrue_best (allow : List String) (q : Option String)
    (o : FetchOutcome) (p : String) (m : PageMeta) (urls : List String)
    (best : Option String)
    (h : (scrapeStatic allow q o).body = ScrapeBody.okTrue p m urls best) :
    best = bestOf urls := by
  cases q with
  | none => simp [scrapeStatic] at h
  | some t =>
    by_cases ht : t = ""
    · simp [scrapeStatic, ht] at h
    · by_cases ha : isAllowed allow t = false
      · simp [scrapeStatic, ht, ha] at h
      · cases o with
        | failure msg => simp [scrapeStatic, ht, ha] at h
        | success doc ru =>
          simp only [scrapeStatic, if_neg ht, if_neg ha] at h
          cases hx : extractM3U8 doc (jsMsgOr ru t) with
          | error e => rw [hx] at h; simp at h
          | ok l =>
            rw [hx] at h
            simp only [ScrapeBody.okTrue.injEq] at h
            obtain ⟨_, _, hurls, hbest⟩ := h
            subst hurls
            exact hbest.symm

/-- Every success body of the rendered handler carries `bestOf` of its
own candidate list as the selection. -/
theorem scrapeRendered_okTrue_best (allow : List String) (q : Option String)
    (o : RenderOutcome) (p : String) (m : PageMeta) (urls : List String)
    (best : Option String)
    (h : (scrapeRendered allow q o).body = ScrapeBody.okTrue p m urls best) :
    best = bestOf urls := by
  cases q with
  | none => simp [scrapeRendered] at h
  | some t =>
    by_cases ht : t = ""
    · simp [scrapeRendered, ht] at h
    · by_cases ha : isAllowed allow t = false
      · simp [scrapeRendered, ht, ha] at h
      · cases o with
        | failure msg => simp [scrapeRendered, ht, ha] at h
        | success f doc reqs =>
          simp only [scrapeRendered, if_neg ht, if_neg ha,
            ScrapeBody.okTrue.injEq] at h
          obtain ⟨_, _, hurls, hbest⟩ := h
          rw [← hurls]
          exact hbest.symm

/-- C7: in every `/scrape` response of either handler variant, the
selected `best` URL, when non-null, is a member of the `m3u8Urls`
candidate list returned alongside it. -/
theorem scrape_best_in_set_C7 :
    (∀ allow q o p m urls best,
      (scrapeStatic allow q o).body = ScrapeBody.okTrue p m urls best →
        ∀ u, best = some u → u ∈ urls)
    ∧ (∀ allow q o p m urls best,
      (scrapeRendered allow q o).body = ScrapeBody.okTrue p m urls best →
        ∀ u, best = some u → u ∈ urls) := by
  constructor
  · intro allow q o p m urls best h u hu
    have hb := scrapeStatic_okTrue_best allow q o p m urls best h
    exact bestOf_mem urls u (by rw [← hb, hu])
  · intro allow q o p m urls best h u hu
    have hb := scrapeRendered_okTrue_best allow q o p m urls best h
    exact bestOf_mem urls u (by rw [← hb, hu])

/-- Witness for C7 on a concrete static scrape whose page holds one
manifest URL. -/
theorem scrape_best_in_set_C7_witness :
    "https://cdn.test/x/master.m3u8" ∈ ["https://cdn.test/x/master.m3u8"] :=
  scrape_best_in_set_C7.1 [] (some "https://h.test/")
    (.success ⟨[], [], "https://cdn.test/x/master.m3u8", "", none, none, none⟩ none)
    "https://h.test/" ⟨none, none, none, none⟩ ["https://cdn.test/x/master.m3u8"]
    (some "https://cdn.test/x/master.m3u8") (by rfl)
    "https://cdn.test/x/master.m3u8" rfl

/-! ## Extractor lemmas -/

/-- Set insertion keeps the list duplicate-free. -/
theorem addUnique_nodup (acc : List String) (s : String) (h : acc.Nodup) :
    (addUnique acc s).Nodup := by
  unfold addUnique
  by_cases hs : s ∈ acc
  · rw [if_pos hs]; exact h
  · rw [if_neg hs]
    simp [List.nodup_append, h, hs]

/-- Adding one scanned candidate keeps the list duplicate-free. -/
theorem addResolved_nodup (base : String) (acc : List String) (m : String)
    (h : acc.Nodup) : (addResolved base acc m).Nodup := by
  unfold addResolved
  split
  · exact h
  · exact addUnique_nodup _ _ h

/-- Folding scanned candidates keeps the list duplicate-free. -/
theorem foldl_addResolved_nodup (base : String) :
    ∀ (ms acc : List String), acc.Nodup → (ms.foldl (addResolved base) acc).Nodup := by
  intro ms
  induction ms with
  | nil => intro acc h; exact h
  | cons m rest ih => intro acc h; exact ih _ (addResolved_nodup base acc m h)

/-- The script pass keeps the list duplicate-free. -/
theorem scriptPass_nodup (base : String) :
    ∀ (texts : List String) (acc : List String), acc.Nodup →
      (scriptPass base texts acc).Nodup := by
  intro texts
  induction texts with
  | nil => intro acc h; exact h
  | cons t rest ih => intro acc h; exact ih _ (foldl_addResolved_nodup base _ _ h)

/-- The DOM pass keeps the list duplicate-free. -/
theorem domPass_nodup (base : String) :
    ∀ (els : List DomEl) (acc l : List String), acc.Nodup →
      domPass base els acc = .ok l → l.Nodup := by
  intro els
  induction els with
  | nil =>
    intro acc l h he
    simp only [domPass, Except.ok.injEq] at he
    subst he; exact h
  | cons el rest ih =>
    intro acc l h he
    simp only [domPass] at he
    cases hs : effSrc el with
    | none => simp only [hs] at he; exact ih _ _ h he
    | some s =>
      simp only [hs] at he
      cases hr : resolveURLStr s base with
      | none => simp only [hr] at he; exact absurd he (by simp)
      | some u => simp only [hr] at he; exact ih _ _ (addUnique_nodup _ _ h) he

/-- Set-insertion membership. -/
theorem mem_addUnique (acc : List String) (x u : String) (h : u ∈ addUnique acc x) :
    u ∈ acc ∨ u = x := by
  unfold addUnique at h
  by_cases hx : x ∈ acc
  · rw [if_pos hx] at h; exact Or.inl h
  · rw [if_neg hx] at h
    rcases List.mem_append.mp h with h1 | h2
    · exact Or.inl h1
    · exact Or.inr (List.mem_singleton.mp h2)

/-- Everything `addResolved` adds is a successfully resolved candidate. -/
theorem mem_addResolved (base : String) (acc : List String) (m u : String)
    (h : u ∈ addResolved base acc m) : u ∈ acc ∨ isResolvedHref base u := by
  unfold addResolved at h
  cases hr : resolveURLStr m base with
  | none => rw [hr] at h; exact Or.inl h
  | some w =>
    rw [hr] at h
    rcases mem_addUnique _ _ _ h with h1 | h2
    · exact Or.inl h1
    · exact Or.inr ⟨m, w, hr, h2⟩

/-- Everything the scanned-candidate fold adds is a resolved candidate. -/
theorem mem_foldl_addResolved (base : String) :
    ∀ (ms acc : List String) (u : String), u ∈ ms.foldl (addResolved base) acc →
      u ∈ acc ∨ isResolvedHref base u := by
  intro ms
  induction ms with
  | nil => intro acc u h; exact Or.inl h
  | cons m rest ih =>
    intro acc u h
    rcases ih _ _ h with h1 | h2
    · exact mem_addResolved base acc m u h1
    · exact Or.inr h2

/-- Everything the script pass adds is a resolved candidate. -/
theorem mem_scriptPass (base : String) :
    ∀ (texts : List String) (acc : List String) (u : String),
      u ∈ scriptPass base texts acc → u ∈ acc ∨ isResolvedHref base u := by
  intro texts
  induction texts with
  | nil => intro acc u h; exact Or.inl h
  | cons t rest ih =>
    intro acc u h
    rcases ih _ _ h with h1 | h2
    · exact mem_foldl_addResolved base _ _ _ h1
    · exact Or.inr h2

/-- Everything the DOM pass adds is a resolved candidate. -/
theorem mem_domPass (base : String) :
    ∀ (els : List DomEl) (acc l : List String) (u : String),
      domPass base els acc = .ok l → u ∈ l → u ∈ acc ∨ isResolvedHref base u := by
  intro els
  induction els with
  | nil =>
    intro acc l u he hu
    simp only [domPass, Except.ok.injEq] at he
    subst he; exact Or.inl hu
  | cons el rest ih =>
    intro acc l u he hu
    simp only [domPass] at he
    cases hs : effSrc el with
    | none => simp only [hs] at he; exact ih _ _ _ he hu
    | some s =>
      simp only [hs] at he
      cases hr : resolveURLStr s base with
      | none => simp only [hr] at he; exact absurd he (by simp)
      | some w =>
        simp only [hr] at he
        rcases ih _ _ _ he hu with h1 | h2
        · rcases mem_addUnique _ _ _ h1 with h3 | h4
          · exact Or.inl h3
          · exact Or.inr ⟨s, w, hr, h4⟩
        · exact Or.inr h2

/-- The DOM pass succeeds when every effective attribute resolves. -/
theorem domPass_total_ok (base : String) :
    ∀ (els : List DomEl) (acc : List String),
      (∀ el ∈ els, ∀ s, effSrc el = some s → (resolveURLStr s base).isSome = true) →
      ∃ l, domPass base els acc = .ok l := by
  intro els
  induction els with
  | nil => intro acc _; exact ⟨acc, rfl⟩
  | cons el rest ih =>
    intro acc hall
    simp only [domPass]
    cases hs : effSrc el with
    | none =>
      simp only [hs]
      exact ih _ (fun e he s hsome => hall e (List.mem_cons_of_mem el he) s hsome)
    | some s =>
      have hsome := hall el (List.mem_cons_self el rest) s hs
      simp only [hs]
      cases hr : resolveURLStr s base with
      | none => rw [hr] at hsome; simp at hsome
      | some w =>
        simp only [hr]
        exact ih _ (fun e he s2 h2 => hall e (List.mem_cons_of_mem el he) s2 h2)

/-! ## Claim C9 — extractor determinism and dedup -/

/-- C9: the manifest extractor is deterministic (as a pure function of
the page and base URL, two runs agree exactly, element order included),
and whenever it produces a candidate list that list contains no
duplicate URL strings. -/
theorem extractor_deterministic_nodup_C9 :
    ∀ (doc : Doc) (base : String),
      extractM3U8 doc base = extractM3U8 doc base
      ∧ (∀ l, extractM3U8 doc base = .ok l → l.Nodup) := by
  intro doc base
  refine ⟨rfl, ?_⟩
  intro l h
  unfold extractM3U8 at h
  cases hd : domPass base doc.els [] with
  | error e => rw [hd] at h; exact absurd h (by simp)
  | ok a1 =>
    rw [hd] at h
    simp only [Except.ok.injEq] at h
    subst h
    exact foldl_addResolved_nodup base _ _
      (scriptPass_nodup base doc.scripts a1
        (domPass_nodup base doc.els [] a1 List.nodup_nil hd))

/-- Witness for C9 on a page combining all three passes (with the raw
pass repeating the script URL, exercising deduplication). -/
theorem extractor_deterministic_nodup_C9_witness :
    (extractM3U8
        ⟨[⟨some "/a.m3u8", none⟩],
         ["play(\"https://cdn.test/x/master.m3u8?t=1\")"],
         "see https://cdn.test/x/master.m3u8?t=1 and /a.m3u8",
         "", none, none, none⟩ "https://h.test/p"
      = extractM3U8
        ⟨[⟨some "/a.m3u8", none⟩],
         ["play(\"https://cdn.test/x/master.m3u8?t=1\")"],
         "see https://cdn.test/x/master.m3u8?t=1 and /a.m3u8",
         "", none, none, none⟩ "https://h.test/p")
    ∧ (["https://h.test/a.m3u8", "https://cdn.test/x/master.m3u8?t=1"] : List String).Nodup :=
  ⟨(extractor_deterministic_nodup_C9 _ "https://h.test/p").1,
   (extractor_deterministic_nodup_C9
      ⟨[⟨some "/a.m3u8", none⟩],
       ["play(\"https://cdn.test/x/master.m3u8?t=1\")"],
       "see https://cdn.test/x/master.m3u8?t=1 and /a.m3u8",
       "", none, none, none⟩ "https://h.test/p").2 _ (by rfl)⟩

/-! ## Claim C3 — silent discarding of malformed candidates -/

/-- Counterexample to C3 as stated: in the DOM pass a candidate whose URL
resolution fails is not silently discarded — `new URL(src, baseUrl)` is
called with no `try/catch` there, so the extractor raises.  The element
`<source src="https://ex%ample/x.m3u8">` matches the selector, and `%` in
the host makes resolution fail. -/
theorem extractor_discard_C3_cex :
    extractM3U8
      ⟨[⟨some "https://ex%ample/x.m3u8", none⟩], [], "", "", none, none, none⟩
      "https://h.test/p" = .error "Invalid URL" := by
  rfl

/-- C3 amended: in the script-text and raw-text passes a candidate whose
resolution fails is silently discarded; the extractor never raises when
every DOM-pass attribute resolves (in particular whenever the element
pass is empty), and every emitted candidate is the serialisation of a
successfully resolved URL (so failing candidates are omitted); the DOM
pass alone propagates a resolution failure as an error.  The closed
conjunct shows both non-DOM passes discarding a malformed candidate. -/
theorem extractor_discard_C3 :
    (∀ (doc : Doc) (base : String),
      (∀ el ∈ doc.els, ∀ s, effSrc el = some s → (resolveURLStr s base).isSome = true) →
      ∃ l, extractM3U8 doc base = .ok l)
    ∧ (∀ (doc : Doc) (base : String) (l : List String) (u : String),
      extractM3U8 doc base = .ok l → u ∈ l → isResolvedHref base u)
    ∧ extractM3U8
        ⟨[], ["x=\"https://ex%ample/x.m3u8\""], "https://ex%ample/y.m3u8",
         "", none, none, none⟩ "https://h.test/p" = .ok [] := by
  refine ⟨?_, ?_, by rfl⟩
  · intro doc base hall
    obtain ⟨l1, hd⟩ := domPass_total_ok base doc.els [] hall
    refine ⟨rawPass base doc.raw (scriptPass base doc.scripts l1), ?_⟩
    unfold extractM3U8
    rw [hd]
  · intro doc base l u he hu
    unfold extractM3U8 at he
    cases hd : domPass base doc.els [] with
    | error e => rw [hd] at he; exact absurd he (by simp)
    | ok a1 =>
      rw [hd] at he
      simp only [Except.ok.injEq] at he
      subst he
      unfold rawPass at hu
      rcases mem_foldl_addResolved base _ _ _ hu with h1 | h2
      · rcases mem_scriptPass base _ _ _ h1 with h3 | h4
        · rcases mem_domPass base _ _ _ _ hd h3 with h5 | h6
          · exact absurd h5 (List.not_mem_nil u)
          · exact h6
        · exact h4
      · exact h2

/-- Witness for C3 amended, on a page with one resolvable DOM candidate. -/
theorem extractor_discard_C3_witness :
    (∃ l, extractM3U8
        ⟨[⟨some "/a.m3u8", none⟩], [], "", "", none, none, none⟩
        "https://h.test/p" = .ok l)
    ∧ isResolvedHref "https://h.test/p" "https://h.test/a.m3u8" := by
  constructor
  · refine extractor_discard_C3.1 _ _ ?_
    intro el hel s hs
    rw [List.mem_singleton] at hel
    subst hel
    have hx : effSrc ⟨some "/a.m3u8", none⟩ = some "/a.m3u8" := by rfl
    rw [hx, Option.some.injEq] at hs
    subst hs
    rfl
  · exact extractor_discard_C3.2.1
      ⟨[⟨some "/a.m3u8", none⟩], [], "", "", none, none, none⟩
      "https://h.test/p" ["https://h.test/a.m3u8"] "https://h.test/a.m3u8"
      (by rfl) (List.mem_singleton.mpr rfl)

/-! ## Header-map lemmas -/

/-- Reading back the header just set. -/
theorem getHeader_setHeader_self (hs : List (String × String)) (k v : String) :
    getHeader (setHeader hs k v) k = some v := by
  unfold getHeader setHeader
  rw [List.find?_append]
  have h1 : (hs.filter (fun p => !(p.1 == k))).find? (fun p => p.1 == k) = none := by
    rw [List.find?_eq_none]
    intro x hx
    have hpx := List.of_mem_filter hx
    simp at hpx
    simp [hpx]
  rw [h1]
  simp [List.find?]

/-- `find?` by key is unaffected by filtering out a different key. -/
theorem find?_key_filter_ne (hs : List (String × String)) (k k2 : String)
    (hne : k ≠ k2) :
    (hs.filter (fun p => !(p.1 == k2))).find? (fun p => p.1 == k)
      = hs.find? (fun p => p.1 == k) := by
  induction hs with
  | nil => rfl
  | cons p t ih =>
    by_cases hp : p.1 = k2
    · rw [List.filter_cons, if_neg (by simp [hp]),
        List.find?_cons_of_neg _ (by simp [hp]; exact Ne.symm hne)]
      exact ih
    · rw [List.filter_cons, if_pos (by simp [hp])]
      by_cases hk : p.1 = k
      · rw [List.find?_cons_of_pos _ (by simp [hk]),
          List.find?_cons_of_pos _ (by simp [hk])]
      · rw [List.find?_cons_of_neg _ (by simp [hk]),
          List.find?_cons_of_neg _ (by simp [hk])]
        exact ih

/-- Setting one header leaves the others readable unchanged. -/
theorem getHeader_setHeader_ne (hs : List (String × String)) (k k2 v : String)
    (hne : k ≠ k2) : getHeader (setHeader hs k2 v) k = getHeader hs k := by
  unfold getHeader setHeader
  rw [List.find?_append, find?_key_filter_ne hs k k2 hne]
  have h2 : (([(k2, v)] : List (String × String)).find? (fun p => p.1 == k)) = none := by
    rw [List.find?_eq_none]
    intro x hx
    rw [List.mem_singleton] at hx
    subst hx
    simp
    exact Ne.symm hne
  rw [h2]
  simp

/-- The passthrough loop does not touch keys outside its list. -/
theorem getHeader_foldl_copyStep_not_mem (up : List (String × String)) :
    ∀ (ks : List String) (acc : List (String × String)) (k : String), k ∉ ks →
      getHeader (ks.foldl (copyStep up) acc) k = getHeader acc k := by
  intro ks
  induction ks with
  | nil => intro acc k _; rfl
  | cons k0 rest ih =>
    intro acc k hk
    have hk0 : k ≠ k0 := fun h => hk (h ▸ List.mem_cons_self k0 rest)
    have hkrest : k ∉ rest := fun h => hk (List.mem_cons_of_mem k0 h)
    rw [List.foldl_cons, ih _ _ hkrest]
    cases hg : getHeader up k0 with
    | none => simp only [copyStep, hg]
    | some v =>
      simp only [copyStep, hg]
      by_cases hv : v = ""
      · rw [if_pos hv]
      · rw [if_neg hv]; exact getHeader_setHeader_ne acc k k0 v hk0

/-- The passthrough loop copies every truthy upstream value of a listed key. -/
theorem getHeader_foldl_copyStep_mem (up : List (String × String)) :
    ∀ (ks : List String) (acc : List (String × String)) (k v : String),
      k ∈ ks → ks.Nodup → getHeader up k = some v → v ≠ "" →
      getHeader (ks.foldl (copyStep up) acc) k = some v := by
  intro ks
  induction ks with
  | nil => intro acc k v hk _ _ _; exact absurd hk (List.not_mem_nil k)
  | cons k0 rest ih =>
    intro acc k v hk hnd hup hv
    rw [List.foldl_cons]
    rcases List.mem_cons.mp hk with h1 | h2
    · subst h1
      have hnotin : k ∉ rest := (List.nodup_cons.mp hnd).1
      rw [getHeader_foldl_copyStep_not_mem up rest _ k hnotin]
      simp only [copyStep, hup, if_neg hv]
      exact getHeader_setHeader_self acc k v
    · exact ih _ _ _ h2 (List.nodup_cons.mp hnd).2 hup hv

/-! ## Claim C2 — response status on upstream success -/

/-- Counterexample to C2 as stated: an accepted upstream 206 response is
answered with status 200, not 206 — the handler pipes the stream without
ever copying the upstream status onto the Express response, which keeps
its default status 200. -/
theorem proxy_status_not_mirrored_C2_cex :
    (proxyHandler [] (some "https://h.test/a.ts")
      (.response 206 [("content-type", "video/mp2t")])).status = 200
    ∧ (proxyHandler [] (some "https://h.test/a.ts")
      (.response 206 [("content-type", "video/mp2t")])).status ≠ 206 :=
  ⟨by rfl, by decide⟩

/-- C2 amended: for every `/proxy` request whose upstream GET succeeds
(status in `[200,400)`), the caller receives status 200 regardless of the
upstream status (it is never mirrored), together with the fixed
passthrough headers: the open CORS origin header is always `*`, and every
other listed header with a truthy upstream value is copied verbatim. -/
theorem proxy_success_status_C2 :
    ∀ (allow : List String) (src : String) (st : Nat) (up : List (String × String)),
      src ≠ "" → isAllowed allow src = true → 200 ≤ st → st < 400 →
      (proxyHandler allow (some src) (.response st up)).status = 200
      ∧ getHeader (proxyHandler allow (some src) (.response st up)).headers
          "access-control-allow-origin" = some "*"
      ∧ (∀ k v, k ∈ passthroughKeys → k ≠ "access-control-allow-origin" →
          getHeader up k = some v → v ≠ "" →
          getHeader (proxyHandler allow (some src) (.response st up)).headers k
            = some v) := by
  intro allow src st up hsrc hallow h1 h2
  have hna : ¬ (isAllowed allow src = false) := by simp [hallow]
  have hresp : proxyHandler allow (some src) (.response st up)
      = ⟨200, relayHeaders up, .stream⟩ := by
    simp only [proxyHandler, if_neg hsrc, if_neg hna,
      if_pos (show 200 ≤ st ∧ st < 400 from ⟨h1, h2⟩)]
  rw [hresp]
  refine ⟨rfl, getHeader_setHeader_self _ _ _, ?_⟩
  intro k v hk hkne hup hv
  show getHeader (relayHeaders up) k = some v
  unfold relayHeaders
  rw [getHeader_setHeader_ne _ k _ _ hkne]
  exact getHeader_foldl_copyStep_mem up passthroughKeys [] k v hk (by decide) hup hv

/-- Witness for C2 amended on a concrete 206 upstream response. -/
theorem proxy_success_status_C2_witness :
    (proxyHandler [] (some "https://h.test/seg.ts")
      (.response 206 [("content-range", "bytes 0-99/1000")])).status = 200
    ∧ getHeader (proxyHandler [] (some "https://h.test/seg.ts")
        (.response 206 [("content-range", "bytes 0-99/1000")])).headers
        "access-control-allow-origin" = some "*"
    ∧ getHeader (proxyHandler [] (some "https://h.test/seg.ts")
        (.response 206 [("content-range", "bytes 0-99/1000")])).headers
        "content-range" = some "bytes 0-99/1000" := by
  have h := proxy_success_status_C2 [] "https://h.test/seg.ts" 206
    [("content-range", "bytes 0-99/1000")] (by decide) (by rfl) (by decide) (by decide)
  exact ⟨h.1, h.2.1,
    h.2.2 "content-range" "bytes 0-99/1000" (by decide) (by decide) (by rfl) (by decide)⟩

/-! ## Claim C8 — upstream failure handling of `/proxy` -/

/-- C8: the upstream GET accepts exactly the statuses in `[200,400)`
(`validateStatus: s => s >= 200 && s < 400`); an accepted response is
relayed, while a rejected status yields 502 with the plain-text body
`Upstream error: Request failed with status code <s>` and a network
error yields 502 with `Upstream error: <message>` (with `Bad gateway`
substituted for an absent or empty message).  The handler consumes a
single upstream outcome — there is no retry path. -/
theorem proxy_upstream_errors_C8 :
    ∀ (allow : List String) (src : String), src ≠ "" → isAllowed allow src = true →
      (∀ st up, 200 ≤ st → st < 400 →
        proxyHandler allow (some src) (.response st up)
          = ⟨200, relayHeaders up, .stream⟩)
      ∧ (∀ st up, ¬ (200 ≤ st ∧ st < 400) →
        proxyHandler allow (some src) (.response st up)
          = ⟨502, [], .text ("Upstream error: " ++ axiosStatusErrMsg st)⟩)
      ∧ (∀ m, proxyHandler allow (some src) (.netErr m)
          = ⟨502, [], .text ("Upstream error: " ++ jsMsgOr m "Bad gateway")⟩) := by
  intro allow src hsrc hallow
  have hna : ¬ (isAllowed allow src = false) := by simp [hallow]
  refine ⟨?_, ?_, ?_⟩
  · intro st up h1 h2
    simp only [proxyHandler, if_neg hsrc, if_neg hna,
      if_pos (show 200 ≤ st ∧ st < 400 from ⟨h1, h2⟩)]
  · intro st up h
    simp only [proxyHandler, if_neg hsrc, if_neg hna, if_neg h]
  · intro m
    simp only [proxyHandler, if_neg hsrc, if_neg hna]

/-- Witness for C8: an upstream 404 becomes a 502 whose body starts with
`Upstream error:`; an upstream 200 is relayed; a timeout message is
carried through. -/
theorem proxy_upstream_errors_C8_witness :
    proxyHandler [] (some "https://h.test/seg.m3u8") (.response 404 [])
      = ⟨502, [], .text ("Upstream error: " ++ axiosStatusErrMsg 404)⟩
    ∧ proxyHandler [] (some "https://h.test/seg.m3u8") (.response 200 [])
      = ⟨200, relayHeaders [], .stream⟩
    ∧ proxyHandler [] (some "https://h.test/seg.m3u8")
        (.netErr (some "timeout of 20000ms exceeded"))
      = ⟨502, [], .text "Upstream error: timeout of 20000ms exceeded"⟩ := by
  have h := proxy_upstream_errors_C8 [] "https://h.test/seg.m3u8" (by decide) (by rfl)
  exact ⟨h.2.1 404 [] (by decide), h.1 200 [] (by decide) (by decide),
    h.2.2 (some "timeout of 20000ms exceeded")⟩

/-! ## Claim C4 — `/scrape` status contract -/

/-- Counterexample to C4 as stated: in the static variants the 400
response for a missing `url` carries the body `{error: 'Missing ?url='}`
with no `ok:false` field (only the rendered variant adds `ok:false`). -/
theorem scrape_missing_url_no_ok_C4_cex :
    (scrapeStatic [] none (.failure none)).status = 400
    ∧ hasOkFalse (scrapeStatic [] none (.failure none)).body = false
    ∧ (scrapeStatic [] none (.failure none)).body = .errOnly "Missing ?url=" :=
  ⟨rfl, rfl, rfl⟩

/-- C4 amended: `/scrape` answers 400 when `url` is absent or empty (with
`{error}` in the static variants, `{ok:false, error}` in the rendered
variant); 403 when the allowlist guard denies the target (same body
split); 500 with `ok:false` and the fault message when the fetch fails,
and also when extraction raises in the static variant; and 200 with
`ok:true` otherwise. -/
theorem scrape_status_contract_C4 :
    (∀ allow o, scrapeStatic allow none o = ⟨400, .errOnly "Missing ?url="⟩)
    ∧ (∀ allow o, scrapeRendered allow none o = ⟨400, .okFalse "Missing ?url="⟩)
    ∧ (∀ allow t o, t ≠ "" → isAllowed allow t = false →
        scrapeStatic allow (some t) o = ⟨403, .errOnly "Domain not allowed"⟩)
    ∧ (∀ allow t o, t ≠ "" → isAllowed allow t = false →
        scrapeRendered allow (some t) o = ⟨403, .okFalse "Domain not allowed"⟩)
    ∧ (∀ allow t m, t ≠ "" → isAllowed allow t = true →
        scrapeStatic allow (some t) (.failure m)
          = ⟨500, .okFalse (jsMsgOr m "Fetch failed")⟩)
    ∧ (∀ allow t m, t ≠ "" → isAllowed allow t = true →
        scrapeRendered allow (some t) (.failure m)
          = ⟨500, .okFalse (jsMsgOr m "Puppeteer failed")⟩)
    ∧ (∀ allow t doc ru, t ≠ "" → isAllowed allow t = true →
        (∀ l, extractM3U8 doc (jsMsgOr ru t) = .ok l →
          scrapeStatic allow (some t) (.success doc ru)
            = ⟨200, .okTrue (jsMsgOr ru t) (extractMeta doc) l (bestOf l)⟩)
        ∧ (∀ e, extractM3U8 doc (jsMsgOr ru t) = .error e →
          scrapeStatic allow (some t) (.success doc ru)
            = ⟨500, .okFalse (jsMsgOr (some e) "Fetch failed")⟩))
    ∧ (∀ allow t f doc reqs, t ≠ "" → isAllowed allow t = true →
        scrapeRendered allow (some t) (.success f doc reqs)
          = ⟨200, .okTrue f (extractMeta doc) (renderedCandidates reqs)
              (bestOf (renderedCandidates reqs))⟩) := by
  refine ⟨fun allow o => rfl, fun allow o => rfl, ?_, ?_, ?_, ?_, ?_, ?_⟩
  · intro allow t o ht ha
    simp only [scrapeStatic, if_neg ht, if_pos ha]
  · intro allow t o ht ha
    simp only [scrapeRendered, if_neg ht, if_pos ha]
  · intro allow t m ht ha
    simp only [scrapeStatic, if_neg ht, if_neg (show ¬ isAllowed allow t = false by simp [ha])]
  · intro allow t m ht ha
    simp only [scrapeRendered, if_neg ht, if_neg (show ¬ isAllowed allow t = false by simp [ha])]
  · intro allow t doc ru ht ha
    have hna : ¬ (isAllowed allow t = false) := by simp [ha]
    constructor
    · intro l hl
      simp only [scrapeStatic, if_neg ht, if_neg hna, hl]
    · intro e he
      simp only [scrapeStatic, if_neg ht, if_neg hna, he]
  · intro allow t f doc reqs ht ha
    simp only [scrapeRendered, if_neg ht, if_neg (show ¬ isAllowed allow t = false by simp [ha])]

/-- Witness for C4 amended at concrete inputs of all four status classes. -/
theorem scrape_status_contract_C4_witness :
    scrapeStatic [] none (.failure none) = ⟨400, .errOnly "Missing ?url="⟩
    ∧ scrapeRendered ["example.com"] (some "https://other.com/") (.failure none)
      = ⟨403, .okFalse "Domain not allowed"⟩
    ∧ scrapeStatic [] (some "https://h.test/")
        (.failure (some "getaddrinfo ENOTFOUND h.test"))
      = ⟨500, .okFalse "getaddrinfo ENOTFOUND h.test"⟩
    ∧ scrapeStatic [] (some "https://h.test/")
        (.success ⟨[], [], "https://cdn.test/x/master.m3u8", "", none, none, none⟩ none)
      = ⟨200, .okTrue "https://h.test/" ⟨none, none, none, none⟩
          ["https://cdn.test/x/master.m3u8"] (some "https://cdn.test/x/master.m3u8")⟩ := by
  refine ⟨scrape_status_contract_C4.1 [] _, ?_, ?_, ?_⟩
  · exact scrape_status_contract_C4.2.2.2.1 ["example.com"] "https://other.com/" _
      (by decide) (by rfl)
  · exact scrape_status_contract_C4.2.2.2.2.1 [] "https://h.test/" _ (by decide) (by rfl)
  · exact (scrape_status_contract_C4.2.2.2.2.2.2.1 [] "https://h.test/"
      ⟨[], [], "https://cdn.test/x/master.m3u8", "", none, none, none⟩ none
      (by decide) (by rfl)).1 ["https://cdn.test/x/master.m3u8"] (by rfl)

/-! ## Claim C5 — rendered-mode candidate set -/

/-- Counterexample to C5 as stated: a rendered page whose HTML contains a
manifest URL the extractor would find, with no observed network request,
yields an empty candidate list — the rendered handler never runs the
manifest extractor against the fetched HTML. -/
theorem scrape_rendered_omits_html_C5_cex :
    extractM3U8 ⟨[], [], "https://cdn.test/x/master.m3u8", "", none, none, none⟩
        "https://h.test/" = .ok ["https://cdn.test/x/master.m3u8"]
    ∧ (scrapeRendered [] (some "https://h.test/")
        (.success "https://h.test/"
          ⟨[], [], "https://cdn.test/x/master.m3u8", "", none, none, none⟩ [])).body
      = .okTrue "https://h.test/" ⟨none, none, none, none⟩ [] none :=
  ⟨by rfl, by rfl⟩

/-- C5 amended: in rendered mode the candidate set returned by `/scrape`
is exactly the deduplicated list of network request URLs containing
`.m3u8` observed during page load, in first-observed order; the page
HTML contributes only metadata — the candidate list is independent of
the rendered HTML, and no HTML-derived candidates are merged in. -/
theorem scrape_rendered_network_only_C5 :
    ∀ (allow : List String) (t f : String) (doc doc2 : Doc) (reqs : List String),
      t ≠ "" → isAllowed allow t = true →
      (scrapeRendered allow (some t) (.success f doc reqs)).body
        = .okTrue f (extractMeta doc) (renderedCandidates reqs)
            (bestOf (renderedCandidates reqs))
      ∧ respUrls (scrapeRendered allow (some t) (.success f doc reqs))
        = respUrls (scrapeRendered allow (some t) (.success f doc2 reqs)) := by
  intro allow t f doc doc2 reqs ht ha
  have hna : ¬ (isAllowed allow t = false) := by simp [ha]
  constructor
  · simp only [scrapeRendered, if_neg ht, if_neg hna]
  · simp only [scrapeRendered, if_neg ht, if_neg hna, respUrls]

/-- Witness for C5 amended: the network observations alone decide the
candidate list, whatever the rendered HTML holds. -/
theorem scrape_rendered_network_only_C5_witness :
    (scrapeRendered [] (some "https://h.test/")
      (.success "https://h.test/" ⟨[], [], "", "", none, none, none⟩
        ["https://cdn.test/live/index.m3u8", "https://cdn.test/img.png"])).body
      = .okTrue "https://h.test/" ⟨none, none, none, none⟩
          ["https://cdn.test/live/index.m3u8"] (some "https://cdn.test/live/index.m3u8")
    ∧ respUrls (scrapeRendered [] (some "https://h.test/")
        (.success "https://h.test/" ⟨[], [], "", "", none, none, none⟩
          ["https://cdn.test/live/index.m3u8", "https://cdn.test/img.png"]))
      = respUrls (scrapeRendered [] (some "https://h.test/")
        (.success "https://h.test/"
          ⟨[], [], "lots of https://other.test/page.m3u8 markup", "Title", none, none, none⟩
          ["https://cdn.test/live/index.m3u8", "https://cdn.test/img.png"])) := by
  have h := scrape_rendered_network_only_C5 [] "https://h.test/" "https://h.test/"
    ⟨[], [], "", "", none, none, none⟩
    ⟨[], [], "lots of https://other.test/page.m3u8 markup", "Title", none, none, none⟩
    ["https://cdn.test/live/index.m3u8", "https://cdn.test/img.png"]
    (by decide) (by rfl)
  exact ⟨h.1, h.2⟩
